import Mathlib

/-!
Verification development for the FinTrackLib core: a shallow embedding of
the INR formatter and parser of src/fintracklib/utils.py and of the income
tax calculator of src/fintracklib/tax.py.  Monetary amounts are modelled as
rationals.  The two digit decimal rendering performed by the Python .2f
float format is modelled as exact round half to even on the hundredths.
-/

namespace FinTrack

/-- Character for the decimal digit d (intended for d below ten). -/
def toCh (d : Nat) : Char := Char.ofNat (48 + d)

/-- Decidable digit test, the character class of a digit in the validation
pattern of utils.py. -/
def isDigCh (c : Char) : Bool := 48 ≤ c.toNat && c.toNat ≤ 57

/-- Whitespace as removed by the Python str.strip calls in utils.py. -/
def isWs (c : Char) : Bool := c == ' ' || c == '\t' || c == '\n' || c == '\r'

/-- Little endian decimal digits with explicit fuel; the fuel makes the
recursion structural, and digitsLE instantiates it with the number itself,
which always suffices. -/
def digAux : Nat → Nat → List Nat
  | _, 0 => []
  | 0, _ + 1 => []
  | fuel + 1, n + 1 => ((n + 1) % 10) :: digAux fuel ((n + 1) / 10)

/-- Little endian decimal digits of a natural number, empty for zero. -/
def digitsLE (n : Nat) : List Nat := digAux n n

/-- Value of a little endian digit list. -/
def ofLE (l : List Nat) : Nat := l.foldr (fun d a => 10 * a + d) 0

/-- Value of a big endian digit character list, as decimal reading sees it. -/
def valBE (l : List Char) : Nat := l.foldl (fun a c => 10 * a + (c.toNat - 48)) 0

/-- Big endian character rendering of a natural number, mirrors Python str. -/
def beDigits (n : Nat) : List Char :=
  if n = 0 then [toCh 0] else ((digitsLE n).reverse).map toCh

/-- Groups of two digits, mirrors the while loop of format_inr that peels
two trailing digits at a time from the remaining digits (little endian
here, so the trailing digits come first). -/
def chunk2 : List Nat → List (List Nat)
  | [] => []
  | [a] => [[a]]
  | a :: b :: rest => [a, b] :: chunk2 rest

/-- Little endian grouping of format_inr: three digits first, then pairs. -/
def groupsLE (l : List Nat) : List (List Nat) := l.take 3 :: chunk2 (l.drop 3)

/-- Join of character groups with commas, mirrors the comma join of the
reversed result parts in format_inr. -/
def joinComma : List (List Char) → List Char
  | [] => []
  | [g] => g
  | g :: gs => g ++ ',' :: joinComma gs

/-- Comma separated Indian grouping of a little endian digit list. -/
def groupedChars (l : List Nat) : List Char :=
  joinComma (((groupsLE l).reverse).map (fun g => (g.map toCh).reverse))

/-- Integer part rendering of format_inr: plain digits below one thousand,
Indian grouping otherwise. -/
def intChars (ip : Nat) : List Char :=
  if ip < 1000 then beDigits ip else groupedChars (digitsLE ip)

/-- Two decimal digit characters taken from the rounded hundredths, mirrors
the slice starting at index two of the .2f rendering; the slice keeps only
the two digits after the decimal point, so a carry into the units is
dropped. -/
def decChars (f : Nat) : List Char := [toCh (f % 100 / 10), toCh (f % 100 % 10)]

/-- Round half to even to the nearest integer, the rounding used by the
Python .2f float format, applied here to the exact hundredths. -/
def rhe (q : ℚ) : ℤ :=
  if q - ⌊q⌋ < 1 / 2 then ⌊q⌋
  else if 1 / 2 < q - ⌊q⌋ then ⌊q⌋ + 1
  else if ⌊q⌋ % 2 = 0 then ⌊q⌋ else ⌊q⌋ + 1

/-- Assembled characters of format_inr from sign, integer part and rounded
hundredths. -/
def fmtChars (neg : Bool) (ip f2 : Nat) : List Char :=
  (if neg then ['-'] else []) ++ '₹' :: intChars ip ++ '.' :: decChars f2

/-- Model of format_inr of utils.py: minus sign in front of the currency
symbol, integer part of the absolute value grouped three then two by two,
and the two decimal digits of the .2f rendering of the fractional
remainder. -/
def format_inr (amount : ℚ) : String :=
  ⟨fmtChars (decide (amount < 0)) (⌊|amount|⌋).toNat
    ((rhe ((|amount| - ((⌊|amount|⌋).toNat : ℚ)) * 100)).toNat)⟩

/-- Strip of leading and trailing whitespace, mirrors str.strip. -/
def trimWs (l : List Char) : List Char :=
  ((l.dropWhile isWs).reverse.dropWhile isWs).reverse

/-- Character removal performed by parse_inr: every rupee sign, space and
comma is deleted. -/
def cleanInr (l : List Char) : List Char :=
  l.filter (fun c => !(c == '₹' || c == ' ' || c == ','))

/-- Split at the first dot. -/
def splitDot : List Char → List Char × Option (List Char)
  | [] => ([], none)
  | c :: rest =>
    if c = '.' then ([], some rest)
    else
      let p := splitDot rest
      (c :: p.1, p.2)

/-- Reading of an unsigned decimal literal: the fragment of the Python float
constructor exercised by parse_inr (exponent, infinity and nan forms are
not modelled; no parse_inr input in this development uses them). -/
def parseUnsigned (l : List Char) : Option ℚ :=
  let p := splitDot l
  match p.2 with
  | none => if l ≠ [] ∧ p.1.all isDigCh then some ((valBE p.1 : ℚ)) else none
  | some b =>
    if (p.1 ≠ [] ∨ b ≠ []) ∧ p.1.all isDigCh ∧ b.all isDigCh then
      some ((valBE p.1 : ℚ) + (valBE b : ℚ) / (10 : ℚ) ^ b.length)
    else none

/-- Reading of an optionally signed decimal literal. -/
def parseDecimal (l : List Char) : Option ℚ :=
  match l with
  | [] => none
  | c :: rest =>
    if c = '-' then (parseUnsigned rest).map (fun q => -q)
    else if c = '+' then parseUnsigned rest
    else parseUnsigned (c :: rest)

/-- Model of parse_inr of utils.py: reject the empty string, strip
whitespace, delete every rupee sign, space and comma, then read the rest
as a decimal number; none models the ValueError. -/
def parse_inr (s : String) : Option ℚ :=
  if s.data = [] then none
  else parseDecimal (cleanInr (trimWs s.data))

/-- Split at every comma. -/
def splitComma : List Char → List (List Char)
  | [] => [[]]
  | c :: rest =>
    if c = ',' then [] :: splitComma rest
    else
      match splitComma rest with
      | [] => [[c]]
      | g :: gs => (c :: g) :: gs

/-- Optional minus immediately in front of the digits, the optional sign of
the validation pattern. -/
def stripNeg : List Char → List Char
  | [] => []
  | c :: rest => if c = '-' then rest else c :: rest

/-- Check of the optional decimal tail of the validation pattern: one or two
digits after the dot. -/
def decPartOk : Option (List Char) → Bool
  | none => true
  | some d => (d.length == 1 || d.length == 2) && d.all isDigCh

/-- Check of the comma groups after the first: zero or more two digit groups
followed by one final three digit group. -/
def groupsTail : List (List Char) → Bool
  | [] => false
  | [g] => g.length == 3 && g.all isDigCh
  | g :: gs => g.length == 2 && g.all isDigCh && groupsTail gs

/-- Check of the grouped alternative of the validation pattern: one or two
leading digits, then the comma groups. -/
def groupsOk : List (List Char) → Bool
  | [] => false
  | g :: gs => (g.length == 1 || g.length == 2) && g.all isDigCh && groupsTail gs

/-- Check of the plain alternative of the validation pattern: one to three
digits. -/
def plainOk (a : List Char) : Bool :=
  (a.length == 1 || a.length == 2 || a.length == 3) && a.all isDigCh

/-- Match of the amount pattern of validate_inr_format after the rupee sign:
an optional minus, then either the Indian grouped form with an optional
decimal tail or a bare one to three digit number with an optional decimal
tail.  The regular expression of utils.py is realised by splitting at the
commas and at the first dot, which is equivalent because the comma and the
dot are literal separators in that pattern. -/
def amountPatternOk (l : List Char) : Bool :=
  let l2 := stripNeg l
  let p := splitDot l2
  (groupsOk (splitComma p.1) && decPartOk p.2) || (plainOk p.1 && decPartOk p.2)

/-- Model of validate_inr_format of utils.py: strip, require the leading
rupee sign, strip again, then match the Indian format pattern; never
fails. -/
def validate_inr_format (s : String) : Bool :=
  match trimWs s.data with
  | [] => false
  | c :: rest => c == '₹' && amountPatternOk (trimWs rest)

/-- Upper bound application for a tax slab; none models the float infinity
of the top slab, for which the income is never capped. -/
def capMin (x : ℚ) : Option ℚ → ℚ
  | none => x
  | some u => min x u

/-- New regime slab constants of TaxCalculator: lower bound, upper bound,
rate percent. -/
def NEW_REGIME_SLABS : List (ℚ × Option ℚ × ℚ) :=
  [(0, some 300000, 0), (300000, some 700000, 5), (700000, some 1000000, 10),
   (1000000, some 1200000, 15), (1200000, some 1500000, 20), (1500000, none, 30)]

/-- Old regime slab constants of TaxCalculator. -/
def OLD_REGIME_SLABS : List (ℚ × Option ℚ × ℚ) :=
  [(0, some 250000, 0), (250000, some 500000, 5), (500000, some 1000000, 20),
   (1000000, none, 30)]

/-- Standard deduction constant of TaxCalculator. -/
def STANDARD_DEDUCTION : ℚ := 50000

/-- Section 87A income limit constant of TaxCalculator. -/
def REBATE_87A_LIMIT : ℚ := 700000

/-- Section 87A maximal rebate constant of TaxCalculator. -/
def REBATE_87A_AMOUNT : ℚ := 12500

/-- Model of the slab loop of TaxCalculator: iterate the slabs in order,
stop at the first slab whose lower bound reaches the income, otherwise
accumulate the slab tax. -/
def calculate_tax_by_slabs (income : ℚ) : List (ℚ × Option ℚ × ℚ) → ℚ → ℚ
  | [], acc => acc
  | (lo, hi, rate) :: rest, acc =>
    if income ≤ lo then acc
    else calculate_tax_by_slabs income rest (acc + (capMin income hi - lo) * rate / 100)

/-- Model of the surcharge computation of TaxCalculator. -/
def calculate_surcharge (tax_before_rebate income : ℚ) : ℚ :=
  if income ≤ 5000000 then 0
  else if income ≤ 10000000 then tax_before_rebate * (10 / 100)
  else if income ≤ 20000000 then tax_before_rebate * (15 / 100)
  else tax_before_rebate * (25 / 100)

/-- Relief at one threshold, the shared body of the three branches of the
marginal relief computation, with its approximate threshold tax. -/
def reliefAt (threshold income tax surcharge : ℚ) : ℚ :=
  let threshold_tax_approx := tax * (threshold / income)
  let excess_income := income - threshold
  let excess_tax := tax + surcharge - threshold_tax_approx
  if excess_income < excess_tax then min (excess_tax - excess_income) surcharge
  else 0

/-- Model of the marginal relief computation of TaxCalculator. -/
def calculate_marginal_relief (income tax_before_rebate surcharge : ℚ) : ℚ :=
  if surcharge = 0 then 0
  else if 5000000 < income ∧ income ≤ 10000000 then
    reliefAt 5000000 income tax_before_rebate surcharge
  else if 10000000 < income ∧ income ≤ 20000000 then
    reliefAt 10000000 income tax_before_rebate surcharge
  else if 20000000 < income then
    reliefAt 20000000 income tax_before_rebate surcharge
  else 0

/-- Result record of calculate_tax; the optional fields are present exactly
when the Python dictionary carries the corresponding keys. -/
structure TaxResult where
  taxable_income : ℚ
  tax_before_rebate : ℚ
  rebate_87a : ℚ
  surcharge : ℚ
  marginal_relief : ℚ
  final_tax : ℚ
  effective_rate : ℚ
  regime_used : String
  deduction_80c : Option ℚ
  deduction_80d : Option ℚ
  months_worked : Option ℤ
deriving DecidableEq

/-- Model of the new regime calculation of TaxCalculator. -/
def calculate_new_regime (income : ℚ) (months : Option ℤ) : TaxResult :=
  let taxable_income := max 0 (income - STANDARD_DEDUCTION)
  let tax_before_rebate := calculate_tax_by_slabs taxable_income NEW_REGIME_SLABS 0
  let rebate_87a :=
    if income ≤ REBATE_87A_LIMIT then min tax_before_rebate REBATE_87A_AMOUNT else 0
  let surcharge := calculate_surcharge tax_before_rebate income
  let marginal_relief := calculate_marginal_relief income tax_before_rebate surcharge
  let surcharge_after_relief := max 0 (surcharge - marginal_relief)
  let final_tax := max 0 (tax_before_rebate - rebate_87a + surcharge_after_relief)
  let effective_rate := if 0 < income then final_tax / income * 100 else 0
  { taxable_income := taxable_income, tax_before_rebate := tax_before_rebate,
    rebate_87a := rebate_87a, surcharge := surcharge_after_relief,
    marginal_relief := marginal_relief, final_tax := final_tax,
    effective_rate := effective_rate, regime_used := "new_regime",
    deduction_80c := none, deduction_80d := none, months_worked := months }

/-- Model of the old regime calculation of TaxCalculator. -/
def calculate_old_regime (income ded80c ded80d : ℚ) (months : Option ℤ) : TaxResult :=
  let t1 := income - STANDARD_DEDUCTION
  let c := min ded80c 150000
  let d := min ded80d 25000
  let taxable_income := max 0 (t1 - c - d)
  let tax_before_rebate := calculate_tax_by_slabs taxable_income OLD_REGIME_SLABS 0
  let surcharge := calculate_surcharge tax_before_rebate income
  let marginal_relief := calculate_marginal_relief income tax_before_rebate surcharge
  let surcharge_after_relief := max 0 (surcharge - marginal_relief)
  let final_tax := tax_before_rebate + surcharge_after_relief
  let effective_rate := if 0 < income then final_tax / income * 100 else 0
  { taxable_income := taxable_income, tax_before_rebate := tax_before_rebate,
    rebate_87a := 0, surcharge := surcharge_after_relief,
    marginal_relief := marginal_relief, final_tax := final_tax,
    effective_rate := effective_rate, regime_used := "old_regime",
    deduction_80c := some c, deduction_80d := some d, months_worked := months }

/-- Dispatch of calculate_tax to the regime branch. -/
def dispatchRegime (income : ℚ) (regime : String) (ded80c ded80d : ℚ)
    (months : Option ℤ) : Except String TaxResult :=
  if regime = "new_regime" then Except.ok (calculate_new_regime income months)
  else Except.ok (calculate_old_regime income ded80c ded80d months)

/-- Model of calculate_tax of TaxCalculator: validation of income, regime
and months_worked in the order of the source, then dispatch; the error
value carries the ValueError message. -/
def calculate_tax (income : ℚ) (regime : String) (ded80c ded80d : ℚ)
    (months : Option ℤ) : Except String TaxResult :=
  if income < 0 then Except.error "Income cannot be negative"
  else if regime ≠ "new_regime" ∧ regime ≠ "old_regime" then
    Except.error "Regime must be new_regime or old_regime"
  else
    match months with
    | some m =>
      if m < 1 ∨ 12 < m then Except.error "months_worked must be between 1 and 12"
      else dispatchRegime income regime ded80c ded80d months
    | none => dispatchRegime income regime ded80c ded80d months

/-- Comparison record of compare_regimes. -/
structure CompareResult where
  new_regime_tax : ℚ
  old_regime_tax : ℚ
  recommended_regime : String
  savings : ℚ
  new_regime_details : TaxResult
  old_regime_details : TaxResult

/-- Model of compare_regimes of TaxCalculator: run both regimes with the
deductions passed to the old regime only, recommend the strictly cheaper
one, with the tie reported as equal and zero savings. -/
def compare_regimes (income ded80c ded80d : ℚ) : Except String CompareResult :=
  match calculate_tax income "new_regime" 0 0 none,
        calculate_tax income "old_regime" ded80c ded80d none with
  | Except.ok nr, Except.ok orr =>
    let new_tax := nr.final_tax
    let old_tax := orr.final_tax
    if new_tax < old_tax then
      Except.ok
        { new_regime_tax := new_tax, old_regime_tax := old_tax,
          recommended_regime := "new_regime", savings := old_tax - new_tax,
          new_regime_details := nr, old_regime_details := orr }
    else if old_tax < new_tax then
      Except.ok
        { new_regime_tax := new_tax, old_regime_tax := old_tax,
          recommended_regime := "old_regime", savings := new_tax - old_tax,
          new_regime_details := nr, old_regime_details := orr }
    else
      Except.ok
        { new_regime_tax := new_tax, old_regime_tax := old_tax,
          recommended_regime := "equal", savings := 0,
          new_regime_details := nr, old_regime_details := orr }
  | Except.error e, _ => Except.error e
  | _, Except.error e => Except.error e

/-- Final tax of a calculation result, zero on error. -/
def finalTaxD : Except String TaxResult → ℚ
  | Except.ok r => r.final_tax
  | Except.error _ => 0

/-- Rebate field of a calculation result. -/
def rebateOf : Except String TaxResult → Option ℚ
  | Except.ok r => some r.rebate_87a
  | Except.error _ => none

/-- Success test for a calculation result. -/
def calcOk : Except String TaxResult → Bool
  | Except.ok _ => true
  | Except.error _ => false

/-- Record update writing the months_worked key. -/
def withMonths (m : ℤ) (r : TaxResult) : TaxResult :=
  { r with months_worked := some m }

/-- Reference bracket sum, stated from the words of the specification: every
bracket with lower bound strictly below the income contributes the rate
share of the income part between its bounds, brackets whose lower bound
reaches the income contribute nothing. -/
def refSlabSum (x : ℚ) (slabs : List (ℚ × Option ℚ × ℚ)) : ℚ :=
  (slabs.map (fun s => if s.1 < x then (capMin x s.2.1 - s.1) * s.2.2 / 100 else 0)).sum

/-- Slab well formedness: nonnegative rates and lower bounds below the
upper bounds; it holds for both regime tables and makes the slab loop
monotone. -/
def SlabsWF (slabs : List (ℚ × Option ℚ × ℚ)) : Prop :=
  ∀ s ∈ slabs, 0 ≤ s.2.2 ∧ ∀ u, s.2.1 = some u → s.1 ≤ u

/-- Digit characters have the expected code point. -/
theorem toCh_toNat {d : Nat} (h : d < 10) : (toCh d).toNat = 48 + d := by
  interval_cases d <;> decide

/-- Digit characters pass the digit test. -/
theorem isDigCh_toCh {d : Nat} (h : d < 10) : isDigCh (toCh d) = true := by
  interval_cases d <;> decide

/-- Digit characters are none of the structural symbols of the INR format
and are not whitespace. -/
theorem toCh_ne_syms {d : Nat} (h : d < 10) :
    toCh d ≠ '₹' ∧ toCh d ≠ ',' ∧ toCh d ≠ ' ' ∧ toCh d ≠ '.' ∧ toCh d ≠ '-' ∧
    toCh d ≠ '+' ∧ isWs (toCh d) = false := by
  interval_cases d <;> decide

/-- Value of a little endian digit list with one digit in front. -/
theorem ofLE_cons (d : Nat) (l : List Nat) : ofLE (d :: l) = 10 * ofLE l + d := rfl

/-- Value of the fuelled digit expansion, for sufficient fuel. -/
theorem ofLE_digAux : ∀ fuel n, n ≤ fuel → ofLE (digAux fuel n) = n := by
  intro fuel
  induction fuel with
  | zero =>
    intro n hn
    have h0 : n = 0 := by omega
    subst h0
    simp [digAux, ofLE]
  | succ f ih =>
    intro n hn
    cases n with
    | zero => simp [digAux, ofLE]
    | succ m =>
      have hdiv : (m + 1) / 10 ≤ f := by
        have h1 : (m + 1) / 10 < m + 1 := Nat.div_lt_self (Nat.succ_pos m) (by norm_num)
        omega
      have hrec := ih ((m + 1) / 10) hdiv
      simp only [digAux, ofLE_cons]
      rw [hrec]
      omega

/-- Every digit produced by the fuelled digit expansion is below ten. -/
theorem digAux_mem_lt : ∀ fuel n d, d ∈ digAux fuel n → d < 10 := by
  intro fuel
  induction fuel with
  | zero => intro n d hd; cases n <;> simp [digAux] at hd
  | succ f ih =>
    intro n d hd
    cases n with
    | zero => simp [digAux] at hd
    | succ m =>
      simp only [digAux, List.mem_cons] at hd
      rcases hd with h | h
      · omega
      · exact ih _ _ h

/-- Length bound for the digit expansion: numbers below a power of ten have
at most that many digits. -/
theorem digAux_len_le : ∀ fuel n k, n < 10 ^ k → (digAux fuel n).length ≤ k := by
  intro fuel
  induction fuel with
  | zero => intro n k _; cases n <;> simp [digAux]
  | succ f ih =>
    intro n k h
    cases n with
    | zero => simp [digAux]
    | succ m =>
      cases k with
      | zero => simp at h
      | succ j =>
        have hd : (m + 1) / 10 < 10 ^ j := by
          rw [Nat.div_lt_iff_lt_mul (by norm_num : 0 < 10)]
          calc m + 1 < 10 ^ (j + 1) := h
            _ = 10 ^ j * 10 := by ring
        have := ih ((m + 1) / 10) j hd
        simp only [digAux, List.length_cons]
        omega

/-- Length bound for the digit expansion: numbers at least a power of ten
have more than that many digits. -/
theorem digAux_len_gt : ∀ fuel n k, n ≤ fuel → 10 ^ k ≤ n → k < (digAux fuel n).length := by
  intro fuel
  induction fuel with
  | zero =>
    intro n k hn h
    exfalso
    have := Nat.one_le_pow k 10 (by norm_num)
    omega
  | succ f ih =>
    intro n k hn h
    cases n with
    | zero =>
      exfalso
      have := Nat.one_le_pow k 10 (by norm_num)
      omega
    | succ m =>
      cases k with
      | zero => simp [digAux]
      | succ j =>
        have hdle : (m + 1) / 10 ≤ f := by
          have := Nat.div_lt_self (Nat.succ_pos m) (by norm_num : 1 < 10)
          omega
        have hge : 10 ^ j ≤ (m + 1) / 10 := by
          rw [Nat.le_div_iff_mul_le (by norm_num : 0 < 10)]
          calc 10 ^ j * 10 = 10 ^ (j + 1) := by ring
            _ ≤ m + 1 := h
        have := ih ((m + 1) / 10) j hdle hge
        simp only [digAux, List.length_cons]
        omega

/-- Value of the digit expansion of a number. -/
theorem ofLE_digitsLE (n : Nat) : ofLE (digitsLE n) = n := ofLE_digAux n n le_rfl

/-- Digits of the digit expansion are below ten. -/
theorem digitsLE_mem_lt (n d : Nat) (h : d ∈ digitsLE n) : d < 10 :=
  digAux_mem_lt n n d h

/-- Digit expansion length upper bound. -/
theorem digitsLE_len_le (n k : Nat) (h : n < 10 ^ k) : (digitsLE n).length ≤ k :=
  digAux_len_le n n k h

/-- Digit expansion length lower bound. -/
theorem digitsLE_len_gt (n k : Nat) (h : 10 ^ k ≤ n) : k < (digitsLE n).length :=
  digAux_len_gt n n k le_rfl h

/-- Reading back a big endian digit character list gives the value of the
little endian digit list. -/
theorem valBE_map_rev : ∀ l : List Nat, (∀ d ∈ l, d < 10) →
    valBE ((l.map toCh).reverse) = ofLE l := by
  intro l
  induction l with
  | nil => intro _; rfl
  | cons d t ih =>
    intro h
    have ht := ih (fun x hx => h x (List.mem_cons_of_mem _ hx))
    have hd := h d (List.mem_cons_self _ _)
    unfold valBE at ht ⊢
    simp only [List.foldl_reverse, List.foldr_map, List.foldr_cons] at ht ⊢
    rw [ht, toCh_toNat hd, ofLE_cons]
    omega

/-- Reading back the rendered digits of a number gives the number. -/
theorem valBE_beDigits (n : Nat) : valBE (beDigits n) = n := by
  by_cases h : n = 0
  · subst h; decide
  · rw [beDigits, if_neg h, List.map_reverse]
    rw [valBE_map_rev _ (fun d hd => digitsLE_mem_lt n d hd)]
    exact ofLE_digitsLE n

/-- Round half to even of an integral rational is the integer itself. -/
theorem rhe_natCast (r : Nat) : rhe (r : ℚ) = r := by
  unfold rhe
  rw [show ((r : ℚ)) = ((r : ℤ) : ℚ) by push_cast; ring, Int.floor_intCast]
  norm_num

/-- Flattening the two digit chunks restores the digit list. -/
theorem chunk2_flatten : ∀ l : List Nat, (chunk2 l).flatten = l
  | [] => by simp [chunk2]
  | [a] => by simp [chunk2]
  | a :: b :: rest => by
    simp only [chunk2, List.flatten_cons, chunk2_flatten rest]
    rfl

/-- Members of the two digit chunks come from the digit list. -/
theorem chunk2_subset : ∀ l : List Nat, ∀ g ∈ chunk2 l, ∀ d ∈ g, d ∈ l
  | [] => by simp [chunk2]
  | [a] => by
    intro g hg d hd
    simp only [chunk2, List.mem_singleton] at hg
    subst hg
    simpa using hd
  | a :: b :: rest => by
    intro g hg d hd
    simp only [chunk2, List.mem_cons] at hg
    rcases hg with h | h
    · subst h
      simp only [List.mem_cons, List.not_mem_nil, or_false] at hd
      rcases hd with h | h <;> simp [h]
    · have := chunk2_subset rest g h d hd
      simp [this]

/-- Members of the Indian groups come from the digit list. -/
theorem groupsLE_subset (l : List Nat) (g : List Nat) (hg : g ∈ groupsLE l)
    (d : Nat) (hd : d ∈ g) : d ∈ l := by
  simp only [groupsLE, List.mem_cons] at hg
  rcases hg with h | h
  · subst h
    exact List.take_subset 3 l hd
  · exact List.drop_subset 3 l (chunk2_subset _ g h d hd)

/-- Characters of a comma join come from a group or are the comma. -/
theorem joinComma_mem : ∀ gs : List (List Char), ∀ c ∈ joinComma gs,
    (∃ g ∈ gs, c ∈ g) ∨ c = ','
  | [] => by simp [joinComma]
  | [g] => by
    intro c hc
    exact Or.inl ⟨g, by simp, by simpa [joinComma] using hc⟩
  | g :: g2 :: gs => by
    intro c hc
    simp only [joinComma, List.mem_append, List.mem_cons] at hc
    rcases hc with h | h | h
    · exact Or.inl ⟨g, by simp, h⟩
    · exact Or.inr h
    · rcases joinComma_mem (g2 :: gs) c h with ⟨g3, hg3, hc3⟩ | h2
      · exact Or.inl ⟨g3, by simp [List.mem_cons] at hg3 ⊢; tauto, hc3⟩
      · exact Or.inr h2

/-- Comma removal on a comma join of clean groups flattens the groups. -/
theorem cleanInr_joinComma : ∀ gs : List (List Char), (∀ g ∈ gs, cleanInr g = g) →
    cleanInr (joinComma gs) = gs.flatten
  | [] => by simp [joinComma, cleanInr]
  | [g] => by
    intro h
    simpa [joinComma] using h g (by simp)
  | g :: g2 :: gs => by
    intro h
    have hg := h g (by simp)
    have hrest := cleanInr_joinComma (g2 :: gs) (fun g3 hg3 => h g3 (by
      simp only [List.mem_cons] at hg3 ⊢
      tauto))
    simp only [joinComma, cleanInr, List.filter_append] at hrest ⊢
    rw [show (g.filter fun c => !(c == '₹' || c == ' ' || c == ',')) = g from hg]
    rw [List.filter_cons_of_neg (by decide)]
    simp only [List.flatten_cons]
    rw [hrest]
    rfl

/-- Characters of the rendered digits of a number are digit characters. -/
theorem beDigits_chars (n : Nat) : ∀ c ∈ beDigits n, ∃ d, d < 10 ∧ c = toCh d := by
  intro c hc
  by_cases h : n = 0
  · subst h
    rw [beDigits, if_pos rfl] at hc
    simp only [List.mem_singleton] at hc
    exact ⟨0, by norm_num, hc⟩
  · rw [beDigits, if_neg h] at hc
    simp only [List.mem_map, List.mem_reverse] at hc
    obtain ⟨d, hd, rfl⟩ := hc
    exact ⟨d, digitsLE_mem_lt n d hd, rfl⟩

/-- Rendered digits pass the digit test. -/
theorem beDigits_all_dig (n : Nat) : (beDigits n).all isDigCh = true := by
  rw [List.all_eq_true]
  intro c hc
  obtain ⟨d, hd, rfl⟩ := beDigits_chars n c hc
  exact isDigCh_toCh hd

/-- Rendered digits contain no dot. -/
theorem beDigits_no_dot (n : Nat) : '.' ∉ beDigits n := by
  intro hc
  obtain ⟨d, hd, e⟩ := beDigits_chars n '.' hc
  exact (toCh_ne_syms hd).2.2.2.1 e.symm

/-- Rendered digits survive the character removal of parse_inr. -/
theorem cleanInr_beDigits (n : Nat) : cleanInr (beDigits n) = beDigits n := by
  rw [cleanInr, List.filter_eq_self]
  intro c hc
  obtain ⟨d, hd, rfl⟩ := beDigits_chars n c hc
  obtain ⟨h1, h2, h3, _⟩ := toCh_ne_syms hd
  simp [h1, h2, h3]

/-- Rendered digits of a positive number are nonempty. -/
theorem beDigits_ne_nil (n : Nat) : beDigits n ≠ [] := by
  by_cases h : n = 0
  · subst h; simp [beDigits]
  · rw [beDigits, if_neg h]
    have : 0 < (digitsLE n).length := by
      have := digitsLE_len_gt n 0 (by omega)
      simpa using this
    intro e
    simp only [List.map_eq_nil_iff, List.reverse_eq_nil_iff] at e
    rw [e] at this
    simp at this

/-- Comma removal on the grouped rendering recovers the plain rendered
digits. -/
theorem cleanInr_groupedChars (n : Nat) (h : n ≠ 0) :
    cleanInr (groupedChars (digitsLE n)) = beDigits n := by
  rw [groupedChars]
  have hclean : ∀ g ∈ ((groupsLE (digitsLE n)).reverse).map
      (fun g => (g.map toCh).reverse), cleanInr g = g := by
    intro g hg
    simp only [List.mem_map, List.mem_reverse] at hg
    obtain ⟨g0, hg0, rfl⟩ := hg
    rw [cleanInr, List.filter_eq_self]
    intro c hc
    simp only [List.mem_reverse, List.mem_map] at hc
    obtain ⟨d, hd, rfl⟩ := hc
    have hdlt : d < 10 := digitsLE_mem_lt n d (groupsLE_subset _ g0 hg0 d hd)
    obtain ⟨h1, h2, h3, _⟩ := toCh_ne_syms hdlt
    simp [h1, h2, h3]
  rw [cleanInr_joinComma _ hclean]
  have hfun : (fun g : List Nat => ((g.map toCh).reverse)) =
      (List.reverse ∘ List.map toCh) := rfl
  rw [show ((groupsLE (digitsLE n)).reverse).map (fun g => (g.map toCh).reverse) =
      (((groupsLE (digitsLE n)).map (List.map toCh)).map List.reverse).reverse by
    simp [List.map_map]]
  rw [← List.reverse_flatten]
  rw [show ((groupsLE (digitsLE n)).map (List.map toCh)).flatten =
      ((groupsLE (digitsLE n)).flatten).map toCh by simp]
  rw [show (groupsLE (digitsLE n)).flatten = digitsLE n by
    simp [groupsLE, chunk2_flatten]]
  rw [beDigits, if_neg h, List.map_reverse]

/-- Splitting at the dot of a well placed dot. -/
theorem splitDot_append (a b : List Char) (h : '.' ∉ a) :
    splitDot (a ++ '.' :: b) = (a, some b) := by
  induction a with
  | nil => simp [splitDot]
  | cons c t ih =>
    have hc : c ≠ '.' := fun e => h (by simp [e])
    have ht := ih (fun hm => h (List.mem_cons_of_mem _ hm))
    simp [splitDot, hc, ht]

/-- Value of the two decimal digit characters. -/
theorem valBE_decChars (f : Nat) : valBE (decChars f) = f % 100 := by
  have h1 : f % 100 / 10 < 10 := by omega
  have h0 : f % 100 % 10 < 10 := by omega
  simp only [decChars, valBE, List.foldl_cons, List.foldl_nil]
  rw [toCh_toNat h1, toCh_toNat h0]
  omega

/-- Decimal digit characters pass the digit test. -/
theorem decChars_all_dig (f : Nat) : (decChars f).all isDigCh = true := by
  have h1 : f % 100 / 10 < 10 := by omega
  have h0 : f % 100 % 10 < 10 := by omega
  simp [decChars, isDigCh_toCh h1, isDigCh_toCh h0]

/-- Characters of the decimal tail are digit characters. -/
theorem decChars_chars (f : Nat) : ∀ c ∈ decChars f, ∃ d, d < 10 ∧ c = toCh d := by
  intro c hc
  simp only [decChars, List.mem_cons, List.not_mem_nil, or_false] at hc
  rcases hc with h | h
  · exact ⟨f % 100 / 10, by omega, h⟩
  · exact ⟨f % 100 % 10, by omega, h⟩

/-- Character assembly of format_inr for a non negative amount. -/
theorem fmtChars_false (ip f : Nat) :
    fmtChars false ip f = '₹' :: intChars ip ++ '.' :: decChars f := by
  simp [fmtChars]

/-- Character assembly of format_inr for a negative amount. -/
theorem fmtChars_true (ip f : Nat) :
    fmtChars true ip f = '-' :: '₹' :: intChars ip ++ '.' :: decChars f := by
  simp [fmtChars]

/-- Characters of the integer part are digit characters or commas. -/
theorem intChars_chars (ip : Nat) : ∀ c ∈ intChars ip,
    (∃ d, d < 10 ∧ c = toCh d) ∨ c = ',' := by
  intro c hc
  rw [intChars] at hc
  by_cases h : ip < 1000
  · rw [if_pos h] at hc
    exact Or.inl (beDigits_chars ip c hc)
  · rw [if_neg h] at hc
    rcases joinComma_mem _ c hc with ⟨g, hg, hcg⟩ | h2
    · simp only [List.mem_map, List.mem_reverse] at hg
      obtain ⟨g0, hg0, rfl⟩ := hg
      simp only [List.mem_reverse, List.mem_map] at hcg
      obtain ⟨d, hd, rfl⟩ := hcg
      exact Or.inl ⟨d, digitsLE_mem_lt ip d (groupsLE_subset _ g0 hg0 d hd), rfl⟩
    · exact Or.inr h2

/-- Characters of format_inr are never whitespace. -/
theorem fmtChars_not_ws (neg : Bool) (ip f : Nat) :
    ∀ c ∈ fmtChars neg ip f, isWs c = false := by
  have hmain : ∀ c, c = '₹' ∨ c ∈ intChars ip ∨ c = '.' ∨ c ∈ decChars f →
      isWs c = false := by
    intro c hc
    rcases hc with h | h | h | h
    · subst h; decide
    · rcases intChars_chars ip c h with ⟨d, hd, he⟩ | h2
      · rw [he]; exact (toCh_ne_syms hd).2.2.2.2.2.2
      · subst h2; decide
    · subst h; decide
    · obtain ⟨d, hd, he⟩ := decChars_chars f c h
      rw [he]; exact (toCh_ne_syms hd).2.2.2.2.2.2
  intro c hc
  cases neg with
  | false =>
    rw [fmtChars_false] at hc
    simp only [List.mem_cons, List.mem_append] at hc
    exact hmain c (by tauto)
  | true =>
    rw [fmtChars_true] at hc
    simp only [List.mem_cons, List.mem_append] at hc
    by_cases hm : c = '-'
    · subst hm; decide
    · exact hmain c (by tauto)

/-- Whitespace trimming is the identity on whitespace free lists. -/
theorem trimWs_eq_self (l : List Char) (h : ∀ c ∈ l, isWs c = false) : trimWs l = l := by
  have h1 : l.dropWhile isWs = l := by
    cases l with
    | nil => rfl
    | cons c t => exact List.dropWhile_cons_of_neg (by simp [h c (by simp)])
  rw [trimWs, h1]
  have h2 : l.reverse.dropWhile isWs = l.reverse := by
    rcases hr : l.reverse with _ | ⟨c, t⟩
    · rfl
    · have hcl : c ∈ l := by
        have hm : c ∈ l.reverse := by rw [hr]; exact List.mem_cons_self _ _
        simpa using hm
      rw [List.dropWhile_cons_of_neg (by simp [h c hcl])]
  rw [h2, List.reverse_reverse]

/-- Character removal distributes over append. -/
theorem cleanInr_append (a b : List Char) :
    cleanInr (a ++ b) = cleanInr a ++ cleanInr b := by
  simp [cleanInr]

/-- The rupee sign is removed by parse_inr. -/
theorem cleanInr_rupee (t : List Char) : cleanInr ('₹' :: t) = cleanInr t := by
  rw [cleanInr, List.filter_cons_of_neg (by decide)]
  rfl

/-- The dot is kept by parse_inr. -/
theorem cleanInr_dot (t : List Char) : cleanInr ('.' :: t) = '.' :: cleanInr t := by
  rw [cleanInr, List.filter_cons_of_pos (by decide)]
  rfl

/-- The minus sign is kept by parse_inr. -/
theorem cleanInr_minus (t : List Char) : cleanInr ('-' :: t) = '-' :: cleanInr t := by
  rw [cleanInr, List.filter_cons_of_pos (by decide)]
  rfl

/-- Decimal digit characters survive the character removal of parse_inr. -/
theorem cleanInr_decChars (f : Nat) : cleanInr (decChars f) = decChars f := by
  rw [cleanInr, List.filter_eq_self]
  intro c hc
  obtain ⟨d, hd, rfl⟩ := decChars_chars f c hc
  obtain ⟨h1, h2, h3, _⟩ := toCh_ne_syms hd
  simp [h1, h2, h3]

/-- Cleaned characters of the integer part are the plain rendered digits. -/
theorem cleanInr_intChars (ip : Nat) : cleanInr (intChars ip) = beDigits ip := by
  rw [intChars]
  by_cases h : ip < 1000
  · rw [if_pos h, cleanInr_beDigits]
  · rw [if_neg h, cleanInr_groupedChars ip (by omega)]

/-- Reading of the cleaned digit characters with a decimal tail. -/
theorem parseUnsigned_fmt (ip f : Nat) (hf : f < 100) :
    parseUnsigned (beDigits ip ++ '.' :: decChars f) =
    some ((ip : ℚ) + (f : ℚ) / 100) := by
  have hsplit := splitDot_append (beDigits ip) (decChars f) (beDigits_no_dot ip)
  rw [parseUnsigned]
  simp only [hsplit]
  rw [if_pos ⟨Or.inl (beDigits_ne_nil ip), beDigits_all_dig ip, decChars_all_dig f⟩]
  rw [valBE_beDigits, valBE_decChars, Nat.mod_eq_of_lt hf]
  norm_num [decChars]

/-- Parse of the formatted characters of a non negative amount. -/
theorem parse_fmt_false (ip f : Nat) (hf : f < 100) :
    parse_inr ⟨fmtChars false ip f⟩ = some ((ip : ℚ) + (f : ℚ) / 100) := by
  have hne : fmtChars false ip f ≠ [] := by rw [fmtChars_false]; simp
  rw [parse_inr, if_neg hne]
  show parseDecimal (cleanInr (trimWs (fmtChars false ip f))) = _
  rw [trimWs_eq_self _ (fmtChars_not_ws false ip f), fmtChars_false]
  rw [show ('₹' :: intChars ip ++ '.' :: decChars f) =
      '₹' :: (intChars ip ++ '.' :: decChars f) from rfl]
  rw [cleanInr_rupee, cleanInr_append, cleanInr_intChars, cleanInr_dot,
    cleanInr_decChars]
  obtain ⟨c, rest, hcr⟩ : ∃ c rest, beDigits ip = c :: rest := by
    rcases hb : beDigits ip with _ | ⟨c, rest⟩
    · exact absurd hb (beDigits_ne_nil ip)
    · exact ⟨c, rest, rfl⟩
  obtain ⟨d, hd, hcd⟩ := beDigits_chars ip c (by rw [hcr]; exact List.mem_cons_self _ _)
  rw [hcr, List.cons_append, parseDecimal]
  rw [if_neg (by rw [hcd]; exact (toCh_ne_syms hd).2.2.2.2.1)]
  rw [if_neg (by rw [hcd]; exact (toCh_ne_syms hd).2.2.2.2.2.1)]
  rw [← List.cons_append, ← hcr, parseUnsigned_fmt ip f hf]

/-- Format of a two decimal digit amount in terms of the character
assembly. -/
theorem format_inr_div100 (n : Nat) :
    format_inr ((n : ℚ) / 100) = ⟨fmtChars false (n / 100) (n % 100)⟩ := by
  have h0 : (0 : ℚ) ≤ (n : ℚ) / 100 := by positivity
  have hq : (n : ℚ) / 100 = ((n / 100 : Nat) : ℚ) + ((n % 100 : Nat) : ℚ) / 100 := by
    rw [show ((n : ℚ)) = 100 * ((n / 100 : Nat) : ℚ) + ((n % 100 : Nat) : ℚ) from by
      exact_mod_cast (Nat.div_add_mod n 100).symm]
    ring
  have hrlt : ((n % 100 : Nat) : ℚ) < 100 := by
    exact_mod_cast Nat.mod_lt n (by norm_num)
  have hrnn : (0 : ℚ) ≤ ((n % 100 : Nat) : ℚ) := by positivity
  have hfl : ⌊(n : ℚ) / 100⌋ = ((n / 100 : Nat) : ℤ) := by
    rw [Int.floor_eq_iff, hq]
    constructor
    · rw [Int.cast_natCast]
      linarith
    · rw [Int.cast_natCast]
      linarith
  rw [format_inr, abs_of_nonneg h0, decide_eq_false (not_lt.mpr h0), hfl,
    Int.toNat_natCast]
  have hfrac : ((n : ℚ) / 100 - ((n / 100 : Nat) : ℚ)) * 100 = ((n % 100 : Nat) : ℚ) := by
    rw [hq]
    ring
  rw [hfrac, rhe_natCast, Int.toNat_natCast]

/-- Fuel irrelevance for the digit expansion, for any two sufficient
fuels. -/
theorem digAux_fuel_irrel : ∀ fuel fuel' n, n ≤ fuel → n ≤ fuel' →
    digAux fuel n = digAux fuel' n := by
  intro fuel
  induction fuel with
  | zero =>
    intro fuel' n hn _
    have h0 : n = 0 := by omega
    subst h0
    cases fuel' <;> simp [digAux]
  | succ f ih =>
    intro fuel' n hn hn'
    cases n with
    | zero => cases fuel' <;> simp [digAux]
    | succ m =>
      cases fuel' with
      | zero => omega
      | succ f' =>
        have hdiv : (m + 1) / 10 < m + 1 := Nat.div_lt_self (Nat.succ_pos m) (by norm_num)
        simp only [digAux]
        rw [ih f' ((m + 1) / 10) (by omega) (by omega)]

/-- Unfolding step of the digit expansion for positive numbers. -/
theorem digitsLE_succ (n : Nat) (h : n ≠ 0) :
    digitsLE n = n % 10 :: digitsLE (n / 10) := by
  cases n with
  | zero => exact absurd rfl h
  | succ m =>
    have hdiv : (m + 1) / 10 < m + 1 := Nat.div_lt_self (Nat.succ_pos m) (by norm_num)
    show digAux (m + 1) (m + 1) = (m + 1) % 10 :: digAux ((m + 1) / 10) ((m + 1) / 10)
    simp only [digAux]
    rw [digAux_fuel_irrel m ((m + 1) / 10) ((m + 1) / 10) (by omega) le_rfl]

/-- Digit expansion of zero. -/
theorem digitsLE_zero : digitsLE 0 = [] := rfl

/-- Format of a negated two decimal digit amount in terms of the character
assembly. -/
theorem format_inr_neg_div100 (n : Nat) (h : 0 < n) :
    format_inr (-((n : ℚ) / 100)) = ⟨fmtChars true (n / 100) (n % 100)⟩ := by
  have hnq : (0 : ℚ) < (n : ℚ) := by exact_mod_cast h
  have hpos : (0 : ℚ) < (n : ℚ) / 100 := by positivity
  have hq : (n : ℚ) / 100 = ((n / 100 : Nat) : ℚ) + ((n % 100 : Nat) : ℚ) / 100 := by
    rw [show ((n : ℚ)) = 100 * ((n / 100 : Nat) : ℚ) + ((n % 100 : Nat) : ℚ) from by
      exact_mod_cast (Nat.div_add_mod n 100).symm]
    ring
  have hrlt : ((n % 100 : Nat) : ℚ) < 100 := by
    exact_mod_cast Nat.mod_lt n (by norm_num)
  have hrnn : (0 : ℚ) ≤ ((n % 100 : Nat) : ℚ) := by positivity
  have hfl : ⌊(n : ℚ) / 100⌋ = ((n / 100 : Nat) : ℤ) := by
    rw [Int.floor_eq_iff, hq]
    constructor
    · rw [Int.cast_natCast]
      linarith
    · rw [Int.cast_natCast]
      linarith
  rw [format_inr, abs_neg, abs_of_nonneg hpos.le,
    decide_eq_true (show -((n : ℚ) / 100) < 0 by linarith), hfl, Int.toNat_natCast]
  have hfrac : ((n : ℚ) / 100 - ((n / 100 : Nat) : ℚ)) * 100 = ((n % 100 : Nat) : ℚ) := by
    rw [hq]
    ring
  rw [hfrac, rhe_natCast, Int.toNat_natCast]

/-- C1: for every non negative amount with at most two decimal digits,
parsing the formatted string returns the original amount, under the models
format_inr and parse_inr of utils.py. -/
theorem parse_format_round_trip (n : Nat) :
    parse_inr (format_inr ((n : ℚ) / 100)) = some ((n : ℚ) / 100) := by
  rw [format_inr_div100, parse_fmt_false (n / 100) (n % 100) (Nat.mod_lt n (by norm_num))]
  congr 1
  rw [show ((n : ℚ)) = 100 * ((n / 100 : Nat) : ℚ) + ((n % 100 : Nat) : ℚ) from by
    exact_mod_cast (Nat.div_add_mod n 100).symm]
  ring

/-- Digit expansion of 999. -/
theorem digitsLE_999 : digitsLE 999 = [9, 9, 9] := by
  norm_num [digitsLE_succ, digitsLE_zero]

/-- Digit expansion of 100. -/
theorem digitsLE_100 : digitsLE 100 = [0, 0, 1] := by
  norm_num [digitsLE_succ, digitsLE_zero]

/-- Digit expansion of 1000. -/
theorem digitsLE_1000 : digitsLE 1000 = [0, 0, 0, 1] := by
  norm_num [digitsLE_succ, digitsLE_zero]

/-- Digit expansion of one lakh. -/
theorem digitsLE_100000 : digitsLE 100000 = [0, 0, 0, 0, 0, 1] := by
  norm_num [digitsLE_succ, digitsLE_zero]

/-- Digit expansion of one crore. -/
theorem digitsLE_crore : digitsLE 10000000 = [0, 0, 0, 0, 0, 0, 0, 1] := by
  norm_num [digitsLE_succ, digitsLE_zero]

/-- Format of 999, no separator below one thousand. -/
theorem format_inr_999 : format_inr 999 = "₹999.00" := by
  rw [show (999 : ℚ) = ((99900 : Nat) : ℚ) / 100 by norm_num, format_inr_div100]
  norm_num [fmtChars, intChars, beDigits, decChars, digitsLE_999]
  decide

/-- Format of 1000, the first grouped value. -/
theorem format_inr_1000 : format_inr 1000 = "₹1,000.00" := by
  rw [show (1000 : ℚ) = ((100000 : Nat) : ℚ) / 100 by norm_num, format_inr_div100]
  norm_num [fmtChars, intChars, beDigits, decChars, digitsLE_1000, groupedChars,
    groupsLE, chunk2, joinComma]
  decide

/-- Format of one lakh. -/
theorem format_inr_lakh : format_inr 100000 = "₹1,00,000.00" := by
  rw [show (100000 : ℚ) = ((10000000 : Nat) : ℚ) / 100 by norm_num, format_inr_div100]
  norm_num [fmtChars, intChars, beDigits, decChars, digitsLE_100000, groupedChars,
    groupsLE, chunk2, joinComma]
  decide

/-- Format of one crore. -/
theorem format_inr_crore : format_inr 10000000 = "₹1,00,00,000.00" := by
  rw [show (10000000 : ℚ) = ((1000000000 : Nat) : ℚ) / 100 by norm_num, format_inr_div100]
  norm_num [fmtChars, intChars, beDigits, decChars, digitsLE_crore, groupedChars,
    groupsLE, chunk2, joinComma]
  decide

/-- Format of minus one hundred, the sign in front of the currency sign. -/
theorem format_inr_neg100 : format_inr (-100) = "-₹100.00" := by
  rw [show (-100 : ℚ) = -(((10000 : Nat) : ℚ) / 100) by norm_num,
    format_inr_neg_div100 10000 (by norm_num)]
  norm_num [fmtChars, intChars, beDigits, decChars, digitsLE_100]
  decide

/-- C4: the five grouping boundary equations of format_inr. -/
theorem format_inr_boundaries :
    format_inr 999 = "₹999.00" ∧ format_inr 1000 = "₹1,000.00" ∧
    format_inr 100000 = "₹1,00,000.00" ∧ format_inr 10000000 = "₹1,00,00,000.00" ∧
    format_inr (-100) = "-₹100.00" :=
  ⟨format_inr_999, format_inr_1000, format_inr_lakh, format_inr_crore,
    format_inr_neg100⟩

/-- Character assembly of format_inr at a given integer part and rounded
hundredths, for a non negative amount. -/
theorem format_inr_parts (a : ℚ) (n f : Nat) (h0 : 0 ≤ a)
    (hfl : ⌊a⌋ = (n : ℤ)) (hr : rhe ((a - (n : ℚ)) * 100) = (f : ℤ)) :
    format_inr a = ⟨fmtChars false n f⟩ := by
  rw [format_inr, abs_of_nonneg h0, decide_eq_false (not_lt.mpr h0), hfl,
    Int.toNat_natCast, hr, Int.toNat_natCast]

/-- C3 evaluation at the failing input: the fractional remainder of 999.996
rounds to a full unit, yet format_inr keeps integer part 999 and renders
the decimals as 00, dropping the carry instead of producing 1,000.00. -/
theorem format_inr_carry_dropped : format_inr ((999996 : ℚ) / 1000) = "₹999.00" := by
  have h0 : (0 : ℚ) ≤ (999996 : ℚ) / 1000 := by norm_num
  have hfl : ⌊(999996 : ℚ) / 1000⌋ = ((999 : Nat) : ℤ) := by
    rw [Int.floor_eq_iff]
    constructor <;> norm_num
  have hr : rhe (((999996 : ℚ) / 1000 - ((999 : Nat) : ℚ)) * 100) = ((100 : Nat) : ℤ) := by
    rw [show ((999996 : ℚ) / 1000 - ((999 : Nat) : ℚ)) * 100 = 996 / 10 by norm_num]
    rw [rhe, show ⌊(996 : ℚ) / 10⌋ = (99 : ℤ) by rw [Int.floor_eq_iff]; constructor <;> norm_num]
    norm_num
  rw [format_inr_parts _ 999 100 h0 hfl hr]
  norm_num [fmtChars, intChars, beDigits, decChars, digitsLE_999]
  decide

/-- A comma join of at least one group starts with the first group. -/
theorem joinComma_eq_append (g : List Char) (gs : List (List Char)) :
    ∃ t, joinComma (g :: gs) = g ++ t := by
  cases gs with
  | nil => exact ⟨[], by simp [joinComma]⟩
  | cons g2 gs => exact ⟨',' :: joinComma (g2 :: gs), rfl⟩

/-- Chunks of the two digit grouping are nonempty. -/
theorem chunk2_ne_nil : ∀ l : List Nat, ∀ g ∈ chunk2 l, g ≠ []
  | [] => by simp [chunk2]
  | [a] => by simp [chunk2]
  | a :: b :: rest => by
    intro g hg
    simp only [chunk2, List.mem_cons] at hg
    rcases hg with h | h
    · subst h; simp
    · exact chunk2_ne_nil rest g h

/-- Shape of the reversed chunks: a first group of one or two digits, then
groups of exactly two. -/
theorem chunk2_shape : ∀ l : List Nat, l ≠ [] → ∃ g gs,
    (chunk2 l).reverse = g :: gs ∧ (g.length = 1 ∨ g.length = 2) ∧
    ∀ h ∈ gs, List.length h = 2
  | [], h => absurd rfl h
  | [a], _ => ⟨[a], [], by simp [chunk2], Or.inl rfl, by simp⟩
  | a :: b :: rest, _ => by
    by_cases hrest : rest = []
    · subst hrest
      exact ⟨[a, b], [], by simp [chunk2], Or.inr rfl, by simp⟩
    · obtain ⟨g, gs, he, hg, hgs⟩ := chunk2_shape rest hrest
      refine ⟨g, gs ++ [[a, b]], ?_, hg, ?_⟩
      · simp only [chunk2, List.reverse_cons, he, List.cons_append]
      · intro h2 hm
        rcases List.mem_append.mp hm with hm1 | hm2
        · exact hgs h2 hm1
        · simp only [List.mem_singleton] at hm2
          subst hm2
          rfl

/-- Splitting a comma free group gives the group alone. -/
theorem splitComma_no_comma (g : List Char) (h : ∀ c ∈ g, c ≠ ',') :
    splitComma g = [g] := by
  induction g with
  | nil => rfl
  | cons c t ih =>
    have hc : c ≠ ',' := h c (by simp)
    have ht := ih (fun x hx => h x (List.mem_cons_of_mem _ hx))
    simp only [splitComma, if_neg hc, ht]

/-- Splitting after a comma free group and a comma. -/
theorem splitComma_append (g t : List Char) (h : ∀ c ∈ g, c ≠ ',') :
    splitComma (g ++ ',' :: t) = g :: splitComma t := by
  induction g with
  | nil => simp [splitComma]
  | cons c g2 ih =>
    have hc : c ≠ ',' := h c (by simp)
    have hg2 := ih (fun x hx => h x (List.mem_cons_of_mem _ hx))
    simp only [List.cons_append, splitComma, if_neg hc, List.append_eq, hg2]

/-- Splitting a comma join of comma free groups gives back the groups. -/
theorem splitComma_joinComma : ∀ gs : List (List Char),
    (∀ g ∈ gs, ∀ c ∈ g, c ≠ ',') → gs ≠ [] → splitComma (joinComma gs) = gs
  | [], _, h => absurd rfl h
  | [g], h, _ => by
    simp only [joinComma]
    exact splitComma_no_comma g (h g (by simp))
  | g :: g2 :: gs, h, _ => by
    have h1 := splitComma_append g (joinComma (g2 :: gs)) (h g (by simp))
    have h2 := splitComma_joinComma (g2 :: gs)
      (fun x hx => h x (List.mem_cons_of_mem _ hx)) (by simp)
    show splitComma (g ++ ',' :: joinComma (g2 :: gs)) = g :: g2 :: gs
    rw [h1, h2]

/-- Tail groups check holds for two digit groups closed by a three digit
group. -/
theorem groupsTail_append : ∀ gs : List (List Char), ∀ last : List Char,
    (∀ g ∈ gs, g.length = 2 ∧ g.all isDigCh = true) →
    last.length = 3 → last.all isDigCh = true →
    groupsTail (gs ++ [last]) = true
  | [], last => by
    intro _ h3 h3d
    simp [groupsTail, h3, h3d]
  | g :: gs2, last => by
    intro h2 h3 h3d
    have hg := h2 g (by simp)
    have hrest := groupsTail_append gs2 last
      (fun x hx => h2 x (List.mem_cons_of_mem _ hx)) h3 h3d
    cases gs2 with
    | nil =>
      simp only [List.nil_append] at hrest
      simp [groupsTail, hg.1, hg.2, h3, h3d]
    | cons g2 gs3 =>
      simp only [List.cons_append] at hrest ⊢
      simp only [groupsTail, hg.1, hg.2]
      simp [hrest]

/-- The integer part contains no dot. -/
theorem intChars_no_dot (ip : Nat) : '.' ∉ intChars ip := by
  intro hc
  rcases intChars_chars ip '.' hc with ⟨d, hd, he⟩ | h
  · exact (toCh_ne_syms hd).2.2.2.1 he.symm
  · exact absurd h (by decide)

/-- The integer part starts with a digit character. -/
theorem intChars_head (ip : Nat) : ∃ d t, d < 10 ∧ intChars ip = toCh d :: t := by
  rw [intChars]
  by_cases h : ip < 1000
  · rw [if_pos h]
    obtain ⟨c, rest, hcr⟩ : ∃ c rest, beDigits ip = c :: rest := by
      rcases hb : beDigits ip with _ | ⟨c, rest⟩
      · exact absurd hb (beDigits_ne_nil ip)
      · exact ⟨c, rest, rfl⟩
    obtain ⟨d, hd, he⟩ := beDigits_chars ip c (by rw [hcr]; exact List.mem_cons_self _ _)
    exact ⟨d, rest, hd, by rw [hcr, he]⟩
  · rw [if_neg h]
    have hlen4 : 3 < (digitsLE ip).length := digitsLE_len_gt ip 3 (by omega)
    have hdrop : (digitsLE ip).drop 3 ≠ [] := by
      intro e
      have hld := List.length_drop 3 (digitsLE ip)
      rw [e] at hld
      simp only [List.length_nil] at hld
      omega
    obtain ⟨g0, gs0, he0, _, _⟩ := chunk2_shape _ hdrop
    rw [groupedChars]
    rw [show ((groupsLE (digitsLE ip)).reverse) =
        g0 :: (gs0 ++ [(digitsLE ip).take 3]) from by
      simp [groupsLE, List.reverse_cons, he0]]
    rw [List.map_cons]
    obtain ⟨t0, ht0⟩ := joinComma_eq_append ((g0.map toCh).reverse) _
    rw [ht0]
    have hg0ne : g0 ≠ [] := by
      apply chunk2_ne_nil ((digitsLE ip).drop 3) g0
      have : g0 ∈ (chunk2 ((digitsLE ip).drop 3)).reverse := by
        rw [he0]; exact List.mem_cons_self _ _
      simpa using this
    rcases hG : (g0.map toCh).reverse with _ | ⟨c, rest⟩
    · exfalso
      simp only [List.reverse_eq_nil_iff, List.map_eq_nil_iff] at hG
      exact hg0ne hG
    · have hcm : c ∈ (g0.map toCh).reverse := by rw [hG]; exact List.mem_cons_self _ _
      simp only [List.mem_reverse, List.mem_map] at hcm
      obtain ⟨d, hdm, he⟩ := hcm
      have hd10 : d < 10 := digitsLE_mem_lt ip d
        (List.drop_subset 3 _ (chunk2_subset _ g0 (by
          have : g0 ∈ (chunk2 ((digitsLE ip).drop 3)).reverse := by
            rw [he0]; exact List.mem_cons_self _ _
          simpa using this) d hdm))
      exact ⟨d, rest ++ t0, hd10, by rw [← he, List.cons_append]⟩

/-- The plain alternative accepts the rendered digits of numbers below one
thousand. -/
theorem plainOk_beDigits (ip : Nat) (h : ip < 1000) : plainOk (beDigits ip) = true := by
  by_cases h0 : ip = 0
  · subst h0; decide
  · have hle : (beDigits ip).length ≤ 3 := by
      rw [beDigits, if_neg h0]
      simp only [List.length_map, List.length_reverse]
      exact digitsLE_len_le ip 3 (by omega)
    have hge : 1 ≤ (beDigits ip).length := by
      rw [beDigits, if_neg h0]
      simp only [List.length_map, List.length_reverse]
      have := digitsLE_len_gt ip 0 (by omega)
      omega
    have hcase : (beDigits ip).length = 1 ∨ (beDigits ip).length = 2 ∨
        (beDigits ip).length = 3 := by omega
    rw [plainOk, beDigits_all_dig, Bool.and_true]
    rcases hcase with he | he | he <;> rw [he] <;> decide

/-- Every character group of the grouped rendering is comma free. -/
theorem grouped_groups_clean (ip : Nat) (g0 : List Nat)
    (hg0 : g0 ∈ groupsLE (digitsLE ip)) :
    (∀ c ∈ (g0.map toCh).reverse, c ≠ ',') ∧
    ((g0.map toCh).reverse).all isDigCh = true ∧
    ((g0.map toCh).reverse).length = g0.length := by
  have hmem : ∀ c ∈ (g0.map toCh).reverse, ∃ d, d < 10 ∧ c = toCh d := by
    intro c hc
    simp only [List.mem_reverse, List.mem_map] at hc
    obtain ⟨d, hd, he⟩ := hc
    exact ⟨d, digitsLE_mem_lt ip d (groupsLE_subset _ g0 hg0 d hd), he.symm⟩
  refine ⟨?_, ?_, by simp⟩
  · intro c hc
    obtain ⟨d, hd, he⟩ := hmem c hc
    rw [he]
    exact (toCh_ne_syms hd).2.1
  · rw [List.all_eq_true]
    intro c hc
    obtain ⟨d, hd, he⟩ := hmem c hc
    rw [he]
    exact isDigCh_toCh hd

/-- The grouped alternative accepts the grouped rendering of numbers of at
least one thousand. -/
theorem groupsOk_grouped (ip : Nat) (h : ¬ ip < 1000) :
    groupsOk (splitComma (groupedChars (digitsLE ip))) = true := by
  have hlen4 : 3 < (digitsLE ip).length := digitsLE_len_gt ip 3 (by omega)
  have hdrop : (digitsLE ip).drop 3 ≠ [] := by
    intro e
    have hld := List.length_drop 3 (digitsLE ip)
    rw [e] at hld
    simp only [List.length_nil] at hld
    omega
  obtain ⟨g0, gs0, he0, hg0len, hgs0len⟩ := chunk2_shape _ hdrop
  have hrev : ((groupsLE (digitsLE ip)).reverse) =
      g0 :: (gs0 ++ [(digitsLE ip).take 3]) := by
    simp [groupsLE, List.reverse_cons, he0]
  have hmemrev : ∀ g, g ∈ g0 :: (gs0 ++ [(digitsLE ip).take 3]) →
      g ∈ groupsLE (digitsLE ip) := by
    intro g hg
    rw [← List.mem_reverse, hrev]
    exact hg
  rw [groupedChars, hrev]
  simp only [List.map_cons]
  have hsplit : splitComma (joinComma ((g0.map toCh).reverse ::
      (gs0 ++ [(digitsLE ip).take 3]).map (fun g => (g.map toCh).reverse))) =
      (g0.map toCh).reverse ::
      (gs0 ++ [(digitsLE ip).take 3]).map (fun g => (g.map toCh).reverse) := by
    apply splitComma_joinComma
    · intro g hg
      rcases List.mem_cons.mp hg with hg1 | hg2
      · subst hg1
        exact (grouped_groups_clean ip g0 (hmemrev g0 (List.mem_cons_self _ _))).1
      · simp only [List.mem_map] at hg2
        obtain ⟨g1, hg1, he1⟩ := hg2
        subst he1
        exact (grouped_groups_clean ip g1 (hmemrev g1 (List.mem_cons_of_mem _ hg1))).1
    · simp
  rw [hsplit]
  simp only [groupsOk]
  obtain ⟨hclean0, hdig0, hlen0⟩ :=
    grouped_groups_clean ip g0 (hmemrev g0 (List.mem_cons_self _ _))
  have hg0l : ((g0.map toCh).reverse.length == 1 ||
      (g0.map toCh).reverse.length == 2) = true := by
    rw [hlen0]
    rcases hg0len with he | he <;> rw [he] <;> decide
  have htail : groupsTail ((gs0 ++ [(digitsLE ip).take 3]).map
      (fun g => (g.map toCh).reverse)) = true := by
    simp only [List.map_append, List.map_cons, List.map_nil]
    apply groupsTail_append
    · intro g hg
      simp only [List.mem_map] at hg
      obtain ⟨g1, hg1, he1⟩ := hg
      subst he1
      obtain ⟨_, hdig1, hlen1⟩ := grouped_groups_clean ip g1
        (hmemrev g1 (List.mem_cons_of_mem _ (List.mem_append_left _ hg1)))
      exact ⟨by rw [hlen1]; exact hgs0len g1 hg1, hdig1⟩
    · obtain ⟨_, _, hlen1⟩ := grouped_groups_clean ip ((digitsLE ip).take 3)
        (hmemrev _ (List.mem_cons_of_mem _ (List.mem_append_right _ (by simp))))
      rw [hlen1, List.length_take]
      omega
    · exact (grouped_groups_clean ip ((digitsLE ip).take 3)
        (hmemrev _ (List.mem_cons_of_mem _ (List.mem_append_right _ (by simp))))).2.1
  rw [hg0l, hdig0, htail]
  decide

/-- The amount pattern accepts the assembled digits of format_inr for a non
negative amount. -/
theorem amountPatternOk_fmt (ip f : Nat) :
    amountPatternOk (intChars ip ++ '.' :: decChars f) = true := by
  obtain ⟨d, t, hd, he⟩ := intChars_head ip
  have hstrip : stripNeg (intChars ip ++ '.' :: decChars f) =
      intChars ip ++ '.' :: decChars f := by
    rw [he, List.cons_append]
    simp only [stripNeg]
    rw [if_neg ((toCh_ne_syms hd).2.2.2.2.1), ← List.cons_append, ← he]
  have hsplit : splitDot (intChars ip ++ '.' :: decChars f) =
      (intChars ip, some (decChars f)) :=
    splitDot_append _ _ (intChars_no_dot ip)
  have hdec : decPartOk (some (decChars f)) = true := by
    have h1 : f % 100 / 10 < 10 := by omega
    have h2 : f % 100 % 10 < 10 := by omega
    simp [decPartOk, decChars, isDigCh_toCh h1, isDigCh_toCh h2]
  simp only [amountPatternOk, hstrip, hsplit]
  rw [hdec, Bool.and_true, Bool.and_true]
  by_cases hip : ip < 1000
  · rw [intChars, if_pos hip, plainOk_beDigits ip hip, Bool.or_true]
  · rw [intChars, if_neg hip, groupsOk_grouped ip hip, Bool.true_or]

/-- validate_inr_format accepts every formatted non negative amount. -/
theorem validate_fmt_false (ip f : Nat) :
    validate_inr_format ⟨fmtChars false ip f⟩ = true := by
  have hinner : ∀ c ∈ intChars ip ++ '.' :: decChars f, isWs c = false := by
    intro c hc
    exact fmtChars_not_ws false ip f c
      (by rw [fmtChars_false]; exact List.mem_cons_of_mem _ hc)
  have ht : trimWs (⟨fmtChars false ip f⟩ : String).data =
      '₹' :: (intChars ip ++ '.' :: decChars f) := by
    show trimWs (fmtChars false ip f) = _
    rw [trimWs_eq_self _ (fmtChars_not_ws false ip f), fmtChars_false,
      List.cons_append]
  unfold validate_inr_format
  rw [ht]
  show (('₹' == '₹') && amountPatternOk (trimWs (intChars ip ++ '.' :: decChars f))) = true
  rw [trimWs_eq_self _ hinner, amountPatternOk_fmt]
  decide

/-- validate_inr_format rejects every formatted negative amount: the minus
sign stands in front of the rupee sign. -/
theorem validate_fmt_true (ip f : Nat) :
    validate_inr_format ⟨fmtChars true ip f⟩ = false := by
  have ht : trimWs (⟨fmtChars true ip f⟩ : String).data =
      '-' :: ('₹' :: intChars ip ++ '.' :: decChars f) := by
    show trimWs (fmtChars true ip f) = _
    rw [trimWs_eq_self _ (fmtChars_not_ws true ip f), fmtChars_true,
      List.cons_append]
  unfold validate_inr_format
  rw [ht]
  show (('-' == '₹') && amountPatternOk (trimWs ('₹' :: intChars ip ++ '.' :: decChars f))) = false
  rw [show (('-' : Char) == '₹') = false from by decide, Bool.false_and]

/-- Parse of the formatted characters of a negative amount. -/
theorem parse_fmt_true (ip f : Nat) (hf : f < 100) :
    parse_inr ⟨fmtChars true ip f⟩ = some (-((ip : ℚ) + (f : ℚ) / 100)) := by
  have hne : fmtChars true ip f ≠ [] := by rw [fmtChars_true]; simp
  rw [parse_inr, if_neg hne]
  show parseDecimal (cleanInr (trimWs (fmtChars true ip f))) = _
  rw [trimWs_eq_self _ (fmtChars_not_ws true ip f), fmtChars_true]
  simp only [List.cons_append]
  rw [cleanInr_minus, cleanInr_rupee, cleanInr_append, cleanInr_intChars,
    cleanInr_dot, cleanInr_decChars]
  simp only [parseDecimal, if_pos rfl]
  rw [parseUnsigned_fmt ip f hf]
  rfl

/-- C9: validate_inr_format rejects every formatted strictly negative
amount because the formatter puts the minus before the rupee sign while the
pattern wants it after, accepts every formatted non negative amount, and
parse_inr still recovers a negative amount with at most two decimal digits
from its formatted string. -/
theorem validate_format_minus_mismatch (a b : ℚ) (n : Nat) (ha : a < 0)
    (hb : 0 ≤ b) (hn : 0 < n) :
    validate_inr_format (format_inr a) = false ∧
    validate_inr_format (format_inr b) = true ∧
    parse_inr (format_inr (-((n : ℚ) / 100))) = some (-((n : ℚ) / 100)) := by
  refine ⟨?_, ?_, ?_⟩
  · rw [format_inr, decide_eq_true ha]
    exact validate_fmt_true _ _
  · rw [format_inr, decide_eq_false (not_lt.mpr hb)]
    exact validate_fmt_false _ _
  · rw [format_inr_neg_div100 n hn,
      parse_fmt_true (n / 100) (n % 100) (Nat.mod_lt n (by norm_num))]
    congr 1
    rw [show ((n : ℚ)) = 100 * ((n / 100 : Nat) : ℚ) + ((n % 100 : Nat) : ℚ) from by
      exact_mod_cast (Nat.div_add_mod n 100).symm]
    ring

/-- C9 witness at the amounts minus one hundred, one hundred and minus one
half rupee. -/
theorem validate_format_minus_mismatch_witness :
    ((-100 : ℚ) < 0) ∧ ((0 : ℚ) ≤ 100) ∧ (0 < 50) ∧
    (validate_inr_format (format_inr (-100)) = false ∧
     validate_inr_format (format_inr 100) = true ∧
     parse_inr (format_inr (-(((50 : Nat) : ℚ) / 100))) =
       some (-(((50 : Nat) : ℚ) / 100))) :=
  ⟨by norm_num, by norm_num, by norm_num,
    validate_format_minus_mismatch (-100) 100 50 (by norm_num) (by norm_num)
      (by norm_num)⟩

/-- Capping is monotone in the income. -/
theorem capMin_mono (x y : ℚ) (h : x ≤ y) (o : Option ℚ) :
    capMin x o ≤ capMin y o := by
  cases o with
  | none => exact h
  | some u => exact min_le_min h le_rfl

/-- One slab contribution is nonnegative when the slab is triggered. -/
theorem slab_term_nonneg (x lo rate : ℚ) (hi : Option ℚ) (hlo : lo < x)
    (hr : 0 ≤ rate) (hu : ∀ u, hi = some u → lo ≤ u) :
    0 ≤ (capMin x hi - lo) * rate / 100 := by
  have hcap : lo ≤ capMin x hi := by
    cases hi with
    | none => exact hlo.le
    | some u => exact le_min hlo.le (hu u rfl)
  apply div_nonneg (mul_nonneg (by linarith) hr) (by norm_num)

/-- The slab loop never falls below its accumulator. -/
theorem loop_ge_acc : ∀ slabs : List (ℚ × Option ℚ × ℚ), SlabsWF slabs →
    ∀ x acc : ℚ, acc ≤ calculate_tax_by_slabs x slabs acc
  | [], _, x, acc => le_rfl
  | (lo, hi, rate) :: rest, hwf, x, acc => by
    rw [calculate_tax_by_slabs]
    by_cases hx : x ≤ lo
    · rw [if_pos hx]
    · rw [if_neg hx]
      have hs := hwf (lo, hi, rate) (List.mem_cons_self _ _)
      have ht : 0 ≤ (capMin x hi - lo) * rate / 100 :=
        slab_term_nonneg x lo rate hi (not_le.mp hx) hs.1 hs.2
      have := loop_ge_acc rest (fun s hs2 => hwf s (List.mem_cons_of_mem _ hs2)) x
        (acc + (capMin x hi - lo) * rate / 100)
      linarith

/-- The slab loop is monotone in the income and the accumulator. -/
theorem loop_mono : ∀ slabs : List (ℚ × Option ℚ × ℚ), SlabsWF slabs →
    ∀ x y a b : ℚ, x ≤ y → a ≤ b →
    calculate_tax_by_slabs x slabs a ≤ calculate_tax_by_slabs y slabs b
  | [], _, x, y, a, b, _, hab => hab
  | (lo, hi, rate) :: rest, hwf, x, y, a, b, hxy, hab => by
    have hs := hwf (lo, hi, rate) (List.mem_cons_self _ _)
    have hwr : SlabsWF rest := fun s hs2 => hwf s (List.mem_cons_of_mem _ hs2)
    rw [calculate_tax_by_slabs, calculate_tax_by_slabs]
    by_cases hy : y ≤ lo
    · rw [if_pos (le_trans hxy hy), if_pos hy]
      exact hab
    · rw [if_neg hy]
      by_cases hx : x ≤ lo
      · rw [if_pos hx]
        have ht : 0 ≤ (capMin y hi - lo) * rate / 100 :=
          slab_term_nonneg y lo rate hi (not_le.mp hy) hs.1 hs.2
        have := loop_ge_acc rest hwr y (b + (capMin y hi - lo) * rate / 100)
        linarith
      · rw [if_neg hx]
        apply loop_mono rest hwr x y _ _ hxy
        have hcap := capMin_mono x y hxy hi
        have ht : (capMin x hi - lo) * rate / 100 ≤ (capMin y hi - lo) * rate / 100 := by
          apply div_le_div_of_nonneg_right ?_ (by norm_num)
          exact mul_le_mul_of_nonneg_right (by linarith) hs.1
        linarith

/-- Reference sum over an empty table. -/
theorem refSlabSum_nil (x : ℚ) : refSlabSum x [] = 0 := rfl

/-- Reference sum unfolding. -/
theorem refSlabSum_cons (x : ℚ) (s : ℚ × Option ℚ × ℚ)
    (rest : List (ℚ × Option ℚ × ℚ)) :
    refSlabSum x (s :: rest) =
    (if s.1 < x then (capMin x s.2.1 - s.1) * s.2.2 / 100 else 0) +
    refSlabSum x rest := by
  simp [refSlabSum]

/-- Brackets at or above the income contribute nothing to the reference
sum. -/
theorem refSlabSum_zero : ∀ slabs : List (ℚ × Option ℚ × ℚ), ∀ x : ℚ,
    (∀ s ∈ slabs, x ≤ s.1) → refSlabSum x slabs = 0
  | [], x, _ => rfl
  | s :: rest, x, h => by
    rw [refSlabSum_cons, if_neg (not_lt.mpr (h s (List.mem_cons_self _ _)))]
    rw [refSlabSum_zero rest x (fun t ht => h t (List.mem_cons_of_mem _ ht))]
    norm_num

/-- The slab loop with the break computes the reference sum over all
brackets when the lower bounds are sorted. -/
theorem loop_eq_refSum : ∀ slabs : List (ℚ × Option ℚ × ℚ),
    List.Pairwise (fun s t => s.1 ≤ t.1) slabs →
    ∀ x acc : ℚ, calculate_tax_by_slabs x slabs acc = acc + refSlabSum x slabs
  | [], _, x, acc => by rw [calculate_tax_by_slabs, refSlabSum_nil, add_zero]
  | (lo, hi, rate) :: rest, hp, x, acc => by
    have hhead := (List.pairwise_cons.mp hp).1
    have hrest := (List.pairwise_cons.mp hp).2
    rw [calculate_tax_by_slabs, refSlabSum_cons]
    by_cases hx : x ≤ lo
    · rw [if_pos hx, if_neg (not_lt.mpr hx)]
      rw [refSlabSum_zero rest x (fun t ht => le_trans hx (hhead t ht))]
      norm_num
    · rw [if_neg hx, if_pos (not_le.mp hx)]
      rw [loop_eq_refSum rest hrest x (acc + (capMin x hi - lo) * rate / 100)]
      ring

/-- Both regime tables are well formed. -/
theorem regime_slabs_wf : SlabsWF NEW_REGIME_SLABS ∧ SlabsWF OLD_REGIME_SLABS := by
  constructor <;>
  · intro s hs
    fin_cases hs <;>
      refine ⟨by norm_num, fun u hu => ?_⟩ <;>
      · first
        | (injection hu with hu2; rw [← hu2]; norm_num)
        | exact absurd hu (by simp)

/-- Both regime tables have sorted lower bounds. -/
theorem regime_slabs_sorted :
    List.Pairwise (fun s t : ℚ × Option ℚ × ℚ => s.1 ≤ t.1) NEW_REGIME_SLABS ∧
    List.Pairwise (fun s t : ℚ × Option ℚ × ℚ => s.1 ≤ t.1) OLD_REGIME_SLABS := by
  constructor
  · norm_num [NEW_REGIME_SLABS, List.pairwise_cons]
  · norm_num [OLD_REGIME_SLABS, List.pairwise_cons]

/-- No surcharge at or below fifty lakhs. -/
theorem surcharge_zero (t i : ℚ) (h : i ≤ 5000000) : calculate_surcharge t i = 0 := by
  rw [calculate_surcharge, if_pos h]

/-- No marginal relief without surcharge. -/
theorem relief_zero (i t : ℚ) : calculate_marginal_relief i t 0 = 0 := by
  rw [calculate_marginal_relief, if_pos rfl]

/-- Final tax of the new regime in the surcharge free zone. -/
theorem new_final_no_surcharge (i : ℚ) (m : Option ℤ) (h : i ≤ 5000000) :
    (calculate_new_regime i m).final_tax =
    max 0 (calculate_tax_by_slabs (max 0 (i - 50000)) NEW_REGIME_SLABS 0 -
      (if i ≤ 700000 then
        min (calculate_tax_by_slabs (max 0 (i - 50000)) NEW_REGIME_SLABS 0) 12500
      else 0)) := by
  simp only [calculate_new_regime, STANDARD_DEDUCTION, REBATE_87A_LIMIT,
    REBATE_87A_AMOUNT]
  rw [surcharge_zero _ _ h, relief_zero]
  norm_num

/-- Final tax of the old regime in the surcharge free zone. -/
theorem old_final_no_surcharge (i c d : ℚ) (m : Option ℤ) (h : i ≤ 5000000) :
    (calculate_old_regime i c d m).final_tax =
    calculate_tax_by_slabs (max 0 (i - 50000 - min c 150000 - min d 25000))
      OLD_REGIME_SLABS 0 := by
  simp only [calculate_old_regime, STANDARD_DEDUCTION]
  rw [surcharge_zero _ _ h, relief_zero]
  norm_num

/-- Monotonicity of the new regime final tax in the surcharge free zone. -/
theorem new_final_mono (i1 i2 : ℚ) (m : Option ℤ) (h1 : i1 ≤ i2)
    (h2 : i2 ≤ 5000000) :
    (calculate_new_regime i1 m).final_tax ≤ (calculate_new_regime i2 m).final_tax := by
  rw [new_final_no_surcharge i1 m (le_trans h1 h2), new_final_no_surcharge i2 m h2]
  have hwf := regime_slabs_wf.1
  have hT : calculate_tax_by_slabs (max 0 (i1 - 50000)) NEW_REGIME_SLABS 0 ≤
      calculate_tax_by_slabs (max 0 (i2 - 50000)) NEW_REGIME_SLABS 0 :=
    loop_mono _ hwf _ _ _ _ (max_le_max le_rfl (by linarith)) le_rfl
  have hT1 : 0 ≤ calculate_tax_by_slabs (max 0 (i1 - 50000)) NEW_REGIME_SLABS 0 :=
    loop_ge_acc _ hwf _ 0
  have hT2 : 0 ≤ calculate_tax_by_slabs (max 0 (i2 - 50000)) NEW_REGIME_SLABS 0 :=
    loop_ge_acc _ hwf _ 0
  set T1 := calculate_tax_by_slabs (max 0 (i1 - 50000)) NEW_REGIME_SLABS 0
  set T2 := calculate_tax_by_slabs (max 0 (i2 - 50000)) NEW_REGIME_SLABS 0
  by_cases hr2 : i2 ≤ 700000
  · rw [if_pos (le_trans h1 hr2), if_pos hr2]
    refine max_le_max le_rfl ?_
    rcases min_cases T1 12500 with ⟨e1, he1⟩ | ⟨e1, he1⟩ <;>
      rcases min_cases T2 12500 with ⟨e2, he2⟩ | ⟨e2, he2⟩ <;>
      rw [e1, e2] <;> linarith
  · by_cases hr1 : i1 ≤ 700000
    · rw [if_pos hr1, if_neg hr2]
      refine max_le_max le_rfl ?_
      have hmin : 0 ≤ min T1 12500 := le_min hT1 (by norm_num)
      linarith
    · rw [if_neg hr1, if_neg hr2]
      exact max_le_max le_rfl (by linarith)

/-- Monotonicity of the old regime final tax in the surcharge free zone. -/
theorem old_final_mono (i1 i2 c d : ℚ) (m : Option ℤ) (h1 : i1 ≤ i2)
    (h2 : i2 ≤ 5000000) :
    (calculate_old_regime i1 c d m).final_tax ≤
    (calculate_old_regime i2 c d m).final_tax := by
  rw [old_final_no_surcharge i1 c d m (le_trans h1 h2),
    old_final_no_surcharge i2 c d m h2]
  exact loop_mono _ regime_slabs_wf.2 _ _ _ _ (max_le_max le_rfl (by linarith)) le_rfl

/-- C2 amended: the final tax of calculate_tax is monotone in the income,
for either regime and fixed deductions, whenever both incomes lie in the
surcharge free zone up to fifty lakhs; above that zone the approximate
marginal relief breaks monotonicity, see the counterexample. -/
theorem final_tax_mono_no_surcharge (i1 i2 c d : ℚ) (reg : String)
    (hreg : reg = "new_regime" ∨ reg = "old_regime") (h0 : 0 ≤ i1)
    (h12 : i1 < i2) (h2 : i2 ≤ 5000000) :
    finalTaxD (calculate_tax i1 reg c d none) ≤
    finalTaxD (calculate_tax i2 reg c d none) := by
  have h01 : ¬ (i1 < 0) := not_lt.mpr h0
  have h02 : ¬ (i2 < 0) := not_lt.mpr (by linarith)
  rcases hreg with rfl | rfl
  · rw [calculate_tax, calculate_tax, if_neg h01, if_neg h02,
      if_neg (by simp), if_neg (by simp)]
    show finalTaxD (dispatchRegime i1 "new_regime" c d none) ≤
      finalTaxD (dispatchRegime i2 "new_regime" c d none)
    rw [dispatchRegime, dispatchRegime, if_pos rfl, if_pos rfl]
    exact new_final_mono i1 i2 none h12.le h2
  · rw [calculate_tax, calculate_tax, if_neg h01, if_neg h02,
      if_neg (by simp), if_neg (by simp)]
    show finalTaxD (dispatchRegime i1 "old_regime" c d none) ≤
      finalTaxD (dispatchRegime i2 "old_regime" c d none)
    rw [dispatchRegime, dispatchRegime, if_neg (by decide), if_neg (by decide)]
    exact old_final_mono i1 i2 c d none h12.le h2

/-- C2 witness in the surcharge free zone, new regime, incomes zero and one
lakh. -/
theorem final_tax_mono_no_surcharge_witness :
    ("new_regime" = "new_regime" ∨ ("new_regime" : String) = "old_regime") ∧
    ((0 : ℚ) ≤ 0) ∧ ((0 : ℚ) < 100000) ∧ ((100000 : ℚ) ≤ 5000000) ∧
    finalTaxD (calculate_tax 0 "new_regime" 0 0 none) ≤
    finalTaxD (calculate_tax 100000 "new_regime" 0 0 none) :=
  ⟨Or.inl rfl, le_rfl, by norm_num, by norm_num,
    final_tax_mono_no_surcharge 0 100000 0 0 "new_regime" (Or.inl rfl) le_rfl
      (by norm_num) (by norm_num)⟩

/-- C2 counterexample: under the new regime with no deductions, the final
tax at income 10000001 is strictly below the final tax at income 10000000;
crossing the one crore surcharge threshold, the approximate marginal relief
wipes out almost the whole fifteen percent surcharge while the ten percent
surcharge paid just below the threshold is not preserved. -/
theorem final_tax_drop_at_crore :
    finalTaxD (calculate_tax 10000001 "new_regime" 0 0 none) <
    finalTaxD (calculate_tax 10000000 "new_regime" 0 0 none) := by
  have h1 : calculate_tax (10000001 : ℚ) "new_regime" 0 0 none =
      Except.ok (calculate_new_regime 10000001 none) := by
    rw [calculate_tax, if_neg (by norm_num), if_neg (by simp), dispatchRegime,
      if_pos rfl]
  have h2 : calculate_tax (10000000 : ℚ) "new_regime" 0 0 none =
      Except.ok (calculate_new_regime 10000000 none) := by
    rw [calculate_tax, if_neg (by norm_num), if_neg (by simp), dispatchRegime,
      if_pos rfl]
  rw [h1, h2]
  show (calculate_new_regime 10000001 none).final_tax <
    (calculate_new_regime 10000000 none).final_tax
  have hT1 : calculate_tax_by_slabs (9950001 : ℚ) NEW_REGIME_SLABS 0 =
      26750003 / 10 := by
    norm_num [calculate_tax_by_slabs, NEW_REGIME_SLABS, capMin, min_def]
  have hT2 : calculate_tax_by_slabs (9950000 : ℚ) NEW_REGIME_SLABS 0 = 2675000 := by
    norm_num [calculate_tax_by_slabs, NEW_REGIME_SLABS, capMin, min_def]
  simp only [calculate_new_regime, STANDARD_DEDUCTION, REBATE_87A_LIMIT,
    REBATE_87A_AMOUNT]
  rw [show max (0 : ℚ) (10000001 - 50000) = 9950001 by norm_num,
    show max (0 : ℚ) (10000000 - 50000) = 9950000 by norm_num, hT1, hT2]
  norm_num [calculate_surcharge, calculate_marginal_relief, reliefAt, min_def,
    max_def]

/-- C5: on both regime tables the slab loop agrees with the reference sum
over all brackets taken from the specification. -/
theorem slabs_loop_eq_ref (x : ℚ) (hx : 0 ≤ x) :
    calculate_tax_by_slabs x NEW_REGIME_SLABS 0 = refSlabSum x NEW_REGIME_SLABS ∧
    calculate_tax_by_slabs x OLD_REGIME_SLABS 0 = refSlabSum x OLD_REGIME_SLABS := by
  constructor
  · rw [loop_eq_refSum NEW_REGIME_SLABS regime_slabs_sorted.1 x 0, zero_add]
  · rw [loop_eq_refSum OLD_REGIME_SLABS regime_slabs_sorted.2 x 0, zero_add]

/-- C5 witness at the taxable income 450000. -/
theorem slabs_loop_eq_ref_witness :
    ((0 : ℚ) ≤ 450000) ∧
    (calculate_tax_by_slabs (450000 : ℚ) NEW_REGIME_SLABS 0 =
      refSlabSum 450000 NEW_REGIME_SLABS ∧
     calculate_tax_by_slabs (450000 : ℚ) OLD_REGIME_SLABS 0 =
      refSlabSum 450000 OLD_REGIME_SLABS) :=
  ⟨by norm_num, slabs_loop_eq_ref 450000 (by norm_num)⟩

/-- C6: under the new regime the Section 87A rebate is 12500 at income
exactly 700000 and zero at income 700001: the limit is inclusive and the
rebate vanishes strictly above it. -/
theorem rebate_cliff :
    rebateOf (calculate_tax 700000 "new_regime" 0 0 none) = some 12500 ∧
    (0 : ℚ) < 12500 ∧
    rebateOf (calculate_tax 700001 "new_regime" 0 0 none) = some 0 := by
  have h1 : calculate_tax (700000 : ℚ) "new_regime" 0 0 none =
      Except.ok (calculate_new_regime 700000 none) := by
    rw [calculate_tax, if_neg (by norm_num), if_neg (by simp), dispatchRegime,
      if_pos rfl]
  have h2 : calculate_tax (700001 : ℚ) "new_regime" 0 0 none =
      Except.ok (calculate_new_regime 700001 none) := by
    rw [calculate_tax, if_neg (by norm_num), if_neg (by simp), dispatchRegime,
      if_pos rfl]
  have hT : calculate_tax_by_slabs (650000 : ℚ) NEW_REGIME_SLABS 0 = 17500 := by
    norm_num [calculate_tax_by_slabs, NEW_REGIME_SLABS, capMin, min_def]
  refine ⟨?_, by norm_num, ?_⟩
  · rw [h1]
    show some (calculate_new_regime 700000 none).rebate_87a = some 12500
    congr 1
    simp only [calculate_new_regime, STANDARD_DEDUCTION, REBATE_87A_LIMIT,
      REBATE_87A_AMOUNT]
    rw [show max (0 : ℚ) (700000 - 50000) = 650000 by norm_num, hT]
    norm_num [min_def]
  · rw [h2]
    show some (calculate_new_regime 700001 none).rebate_87a = some 0
    congr 1

/-- C7: calculate_tax with the default months succeeds exactly when the
income is non negative and the regime is one of the two recognizers; in
every other case it raises. -/
theorem calculate_tax_ok_iff (income c d : ℚ) (reg : String) :
    calcOk (calculate_tax income reg c d none) = true ↔
    (0 ≤ income ∧ (reg = "new_regime" ∨ reg = "old_regime")) := by
  rw [calculate_tax]
  by_cases h1 : income < 0
  · rw [if_pos h1]
    constructor
    · intro h
      exact absurd h (by simp [calcOk])
    · rintro ⟨h0, _⟩
      exact absurd h1 (not_lt.mpr h0)
  · rw [if_neg h1]
    by_cases h2 : reg ≠ "new_regime" ∧ reg ≠ "old_regime"
    · rw [if_pos h2]
      constructor
      · intro h
        exact absurd h (by simp [calcOk])
      · rintro ⟨_, hr | hr⟩
        · exact absurd hr h2.1
        · exact absurd hr h2.2
    · rw [if_neg h2]
      push_neg at h2
      show calcOk (dispatchRegime income reg c d none) = true ↔ _
      rw [dispatchRegime]
      by_cases h3 : reg = "new_regime"
      · rw [if_pos h3]
        exact ⟨fun _ => ⟨not_lt.mp h1, Or.inl h3⟩, fun _ => rfl⟩
      · rw [if_neg h3]
        exact ⟨fun _ => ⟨not_lt.mp h1, Or.inr (h2 h3)⟩, fun _ => rfl⟩

/-- C8: compare_regimes on a non negative income returns the two final
taxes, the absolute savings between them, and recommends the strictly
cheaper regime with the tie reported as equal. -/
theorem compare_regimes_spec (income c d : ℚ) (h : 0 ≤ income) :
    ∃ r, compare_regimes income c d = Except.ok r ∧
      r.new_regime_tax = (calculate_new_regime income none).final_tax ∧
      r.old_regime_tax = (calculate_old_regime income c d none).final_tax ∧
      r.savings = |r.new_regime_tax - r.old_regime_tax| ∧
      0 ≤ r.savings ∧
      (r.recommended_regime = "equal" ↔ r.new_regime_tax = r.old_regime_tax) ∧
      (r.new_regime_tax < r.old_regime_tax → r.recommended_regime = "new_regime") ∧
      (r.old_regime_tax < r.new_regime_tax → r.recommended_regime = "old_regime") := by
  have hnew : calculate_tax income "new_regime" 0 0 none =
      Except.ok (calculate_new_regime income none) := by
    rw [calculate_tax, if_neg (not_lt.mpr h), if_neg (by simp), dispatchRegime,
      if_pos rfl]
  have hold : calculate_tax income "old_regime" c d none =
      Except.ok (calculate_old_regime income c d none) := by
    rw [calculate_tax, if_neg (not_lt.mpr h), if_neg (by simp), dispatchRegime,
      if_neg (by decide)]
  unfold compare_regimes
  rw [hnew, hold]
  dsimp only
  generalize (calculate_new_regime income none).final_tax = A
  generalize (calculate_old_regime income c d none).final_tax = B
  rcases lt_trichotomy A B with hlt | heq | hgt
  · rw [if_pos hlt]
    refine ⟨_, rfl, rfl, rfl, ?_, ?_, ?_, fun _ => rfl,
      fun hx => absurd hx (lt_asymm hlt)⟩
    · show B - A = |A - B|
      rw [abs_sub_comm, abs_of_nonneg (by linarith)]
    · show (0 : ℚ) ≤ B - A
      linarith
    · constructor
      · intro he
        have he2 : ("new_regime" : String) = "equal" := he
        exact absurd he2 (by decide)
      · intro he
        exact absurd he (by linarith)
  · rw [if_neg (by linarith), if_neg (by linarith)]
    refine ⟨_, rfl, rfl, rfl, ?_, le_rfl, ?_, fun hx => absurd hx (by linarith),
      fun hx => absurd hx (by linarith)⟩
    · show (0 : ℚ) = |A - B|
      rw [heq, sub_self, abs_zero]
    · exact ⟨fun _ => heq, fun _ => rfl⟩
  · rw [if_neg (by linarith), if_pos hgt]
    refine ⟨_, rfl, rfl, rfl, ?_, ?_, ?_, fun hx => absurd hx (lt_asymm hgt),
      fun _ => rfl⟩
    · show A - B = |A - B|
      rw [abs_of_nonneg (by linarith)]
    · show (0 : ℚ) ≤ A - B
      linarith
    · constructor
      · intro he
        have he2 : ("old_regime" : String) = "equal" := he
        exact absurd he2 (by decide)
      · intro he
        exact absurd he (by linarith)

/-- C8 witness at income five lakhs with no deductions. -/
theorem compare_regimes_spec_witness :
    ((0 : ℚ) ≤ 500000) ∧
    (∃ r, compare_regimes 500000 0 0 = Except.ok r ∧
      r.new_regime_tax = (calculate_new_regime 500000 none).final_tax ∧
      r.old_regime_tax = (calculate_old_regime 500000 0 0 none).final_tax ∧
      r.savings = |r.new_regime_tax - r.old_regime_tax| ∧
      0 ≤ r.savings ∧
      (r.recommended_regime = "equal" ↔ r.new_regime_tax = r.old_regime_tax) ∧
      (r.new_regime_tax < r.old_regime_tax → r.recommended_regime = "new_regime") ∧
      (r.old_regime_tax < r.new_regime_tax → r.recommended_regime = "old_regime")) :=
  ⟨by norm_num, compare_regimes_spec 500000 0 0 (by norm_num)⟩

/-- C10: with months_worked supplied, calculate_tax raises exactly outside
one to twelve, and inside that range the result is the default result with
the months_worked key added and no tax field changed. -/
theorem months_worked_check (income c d : ℚ) (reg : String) (m : ℤ) :
    ((m < 1 ∨ 12 < m) → calcOk (calculate_tax income reg c d (some m)) = false) ∧
    (1 ≤ m → m ≤ 12 →
      calculate_tax income reg c d (some m) =
      Except.map (withMonths m) (calculate_tax income reg c d none)) := by
  constructor
  · intro hm
    rw [calculate_tax]
    by_cases h1 : income < 0
    · rw [if_pos h1]
      rfl
    · rw [if_neg h1]
      by_cases h2 : reg ≠ "new_regime" ∧ reg ≠ "old_regime"
      · rw [if_pos h2]
        rfl
      · rw [if_neg h2]
        show calcOk (if m < 1 ∨ 12 < m then _ else dispatchRegime income reg c d (some m)) = false
        rw [if_pos hm]
        rfl
  · intro hm1 hm2
    rw [calculate_tax, calculate_tax]
    by_cases h1 : income < 0
    · rw [if_pos h1, if_pos h1]
      rfl
    · rw [if_neg h1, if_neg h1]
      by_cases h2 : reg ≠ "new_regime" ∧ reg ≠ "old_regime"
      · rw [if_pos h2, if_pos h2]
        rfl
      · rw [if_neg h2, if_neg h2]
        show (if m < 1 ∨ 12 < m then _ else dispatchRegime income reg c d (some m)) =
          Except.map (withMonths m) (dispatchRegime income reg c d none)
        rw [if_neg (by omega)]
        rw [dispatchRegime, dispatchRegime]
        by_cases h3 : reg = "new_regime"
        · rw [if_pos h3, if_pos h3]
          rfl
        · rw [if_neg h3, if_neg h3]
          rfl

/-- C10 witness: months zero raises, months six only adds the key, at
income five lakhs under the new regime. -/
theorem months_worked_check_witness :
    (((0 : ℤ) < 1 ∨ 12 < (0 : ℤ)) →
      calcOk (calculate_tax 500000 "new_regime" 0 0 (some 0)) = false) ∧
    (calcOk (calculate_tax 500000 "new_regime" 0 0 (some 0)) = false) ∧
    (calculate_tax 500000 "new_regime" 0 0 (some 6) =
      Except.map (withMonths 6) (calculate_tax 500000 "new_regime" 0 0 none)) :=
  ⟨(months_worked_check 500000 0 0 "new_regime" 0).1,
   (months_worked_check 500000 0 0 "new_regime" 0).1 (Or.inl (by norm_num)),
   (months_worked_check 500000 0 0 "new_regime" 6).2 (by norm_num) (by norm_num)⟩

end FinTrack
